import Mathlib

/-!
Verification of the pymanopt batched matrix kernels (`pymanopt/tools/multi.py`)
and of spec-level models of the manifold / optimizer components exercised by
the test suite.  Matrices are embedded as Mathlib matrices over `ℂ` (the code
accepts real or complex `numpy` arrays; the real case is the sub-case of
matrices with real entries), a batch of `k` matrices (a 3-D array of shape
`(k, m, n)`) is embedded as a function `Fin k → Matrix (Fin m) (Fin n) ℂ`,
and floating point is idealized as exact arithmetic.
-/

open scoped Matrix

namespace Pymanopt

/-- A `numpy` `ndarray` argument that is either a single 2-D matrix or a 3-D
batch of matrices; `multitransp` dispatches on `A.ndim`. -/
inductive NDArray (α : Type) where
  | two : (m n : ℕ) → Matrix (Fin m) (Fin n) α → NDArray α
  | three : (k m n : ℕ) → (Fin k → Matrix (Fin m) (Fin n) α) → NDArray α

/-- Model of `A.T` on a 2-D array: entry `(i, j)` of the result is entry `(j, i)` of `A`. -/
def npT {m n : ℕ} {α : Type} (A : Matrix (Fin m) (Fin n) α) :
    Matrix (Fin n) (Fin m) α :=
  Matrix.of fun i j => A j i

/-- Model of `np.transpose(A, (0, 2, 1))` on a 3-D array: the batch axis is kept and the
two trailing axes are exchanged. -/
def npTranspose021 {k m n : ℕ} {α : Type} (A : Fin k → Matrix (Fin m) (Fin n) α) :
    Fin k → Matrix (Fin n) (Fin m) α :=
  fun b => Matrix.of fun i j => A b j i

/-- Dispatch of `multitransp(A)`: `if A.ndim == 2: return A.T` else
`np.transpose(A, (0, 2, 1))`. -/
def multitransp : NDArray ℂ → NDArray ℂ
  | .two m n A => .two n m (npT A)
  | .three k m n A => .three k n m (npTranspose021 A)

/-- The 3-D branch of `multitransp`. -/
def multitranspB {k m n : ℕ} (A : Fin k → Matrix (Fin m) (Fin n) ℂ) :
    Fin k → Matrix (Fin n) (Fin m) ℂ :=
  npTranspose021 A

/-- Model of `multihconj(A) = np.conjugate(multitransp(A))` on a 3-D batch. -/
def multihconjB {k m n : ℕ} (A : Fin k → Matrix (Fin m) (Fin n) ℂ) :
    Fin k → Matrix (Fin n) (Fin m) ℂ :=
  fun b => (multitranspB A b).map (starRingEnd ℂ)

/-- Model of `multihconj` on a single 2-D matrix. -/
def multihconj2 {m n : ℕ} (A : Matrix (Fin m) (Fin n) ℂ) : Matrix (Fin n) (Fin m) ℂ :=
  (npT A).map (starRingEnd ℂ)

/-- Model of `multisym(A) = 0.5 * (A + multitransp(A))` on a single 2-D matrix. -/
noncomputable def multisym2 {n : ℕ} (A : Matrix (Fin n) (Fin n) ℂ) : Matrix (Fin n) (Fin n) ℂ :=
  (0.5 : ℂ) • (A + npT A)

/-- Model of `multisym(A) = 0.5 * (A + multitransp(A))` on a 3-D batch (the `numpy`
arithmetic broadcasts slice-wise). -/
noncomputable def multisymB {k n : ℕ} (A : Fin k → Matrix (Fin n) (Fin n) ℂ) :
    Fin k → Matrix (Fin n) (Fin n) ℂ :=
  fun b => (0.5 : ℂ) • (A b + npTranspose021 A b)

/-- Model of `multiskew(A) = 0.5 * (A - multitransp(A))` on a single 2-D matrix. -/
noncomputable def multiskew2 {n : ℕ} (A : Matrix (Fin n) (Fin n) ℂ) : Matrix (Fin n) (Fin n) ℂ :=
  (0.5 : ℂ) • (A - npT A)

/-- Model of `multiskew(A) = 0.5 * (A - multitransp(A))` on a 3-D batch. -/
noncomputable def multiskewB {k n : ℕ} (A : Fin k → Matrix (Fin n) (Fin n) ℂ) :
    Fin k → Matrix (Fin n) (Fin n) ℂ :=
  fun b => (0.5 : ℂ) • (A b - npTranspose021 A b)

/-- The sign / unit-modulus-phase factor computed by `multiqr` for one diagonal
entry `d` of `r`: the code first replaces a zero entry by `1`
(`diagonal[diagonal == 0] = 1`) and then divides by the absolute value
(`s = diagonal / np.abs(diagonal)`). -/
noncomputable def qrSign (d : ℂ) : ℂ :=
  let d' := if d = 0 then 1 else d
  d' / (Complex.abs d' : ℝ)

/-- The `q = q * s` rescaling step of `multiqr`: column `j` of `q` is
multiplied by the phase of the `j`-th diagonal entry of `r` (for a 3-D input
`s` gets `np.expand_dims(s, axis=1)`, which is the same slice-wise column
scaling). -/
noncomputable def qrFixQ {m n : ℕ} (q : Matrix (Fin m) (Fin n) ℂ)
    (r : Matrix (Fin n) (Fin n) ℂ) : Matrix (Fin m) (Fin n) ℂ :=
  Matrix.of fun i j => q i j * qrSign (r j j)

/-- The `r = multitransp(multitransp(r) * np.conjugate(s))` rescaling step of
`multiqr`: row `i` of `r` is multiplied by the conjugate phase of the `i`-th
diagonal entry. -/
noncomputable def qrFixR {n : ℕ} (r : Matrix (Fin n) (Fin n) ℂ) :
    Matrix (Fin n) (Fin n) ℂ :=
  Matrix.of fun i j => r i j * (starRingEnd ℂ) (qrSign (r i i))

/-- The sign-stabilizing rescale of `multiqr` applied to one pair of factors
`(q, r)` produced by the underlying library call `np.linalg.qr`. -/
noncomputable def multiqrM {m n : ℕ} (q : Matrix (Fin m) (Fin n) ℂ)
    (r : Matrix (Fin n) (Fin n) ℂ) :
    Matrix (Fin m) (Fin n) ℂ × Matrix (Fin n) (Fin n) ℂ :=
  (qrFixQ q r, qrFixR r)

/-- An error raised by a `numpy` call. -/
inductive NpError where
  | valueError : String → NpError
deriving DecidableEq

/-- The `ValueError` message produced by `np.vectorize` with a `signature` on a
size-0 input when `otypes` is not set. -/
def vectorizeSize0Msg : String :=
  "cannot call vectorize with a signature on size 0 inputs unless otypes is set"

/-- Model of `np.vectorize(f, signature=...)(A)` applied over the leading batch axis of
a 3-D array: the function is applied to each slice independently, except that a
size-0 input raises `ValueError` (the code never passes `otypes`, and
`np.vectorize` needs one call of `f` to determine output types). -/
def npVectorize {k m n : ℕ} {β : Type} (f : Matrix (Fin m) (Fin n) ℂ → β)
    (A : Fin k → Matrix (Fin m) (Fin n) ℂ) : Except NpError (Fin k → β) :=
  if k = 0 then .error (.valueError vectorizeSize0Msg)
  else .ok fun b => f (A b)

/-- Model of `multiqr` on a 3-D batch, parametrized by the per-matrix library routine
`qrf` standing for `np.linalg.qr` (reduced mode, `r` square for `m ≥ n`): the
batched call goes through `np.vectorize` and the factors are then
sign-stabilized slice-wise. -/
noncomputable def multiqrV {k m n : ℕ}
    (qrf : Matrix (Fin m) (Fin n) ℂ → Matrix (Fin m) (Fin n) ℂ × Matrix (Fin n) (Fin n) ℂ)
    (A : Fin k → Matrix (Fin m) (Fin n) ℂ) :
    Except NpError (Fin k → Matrix (Fin m) (Fin n) ℂ × Matrix (Fin n) (Fin n) ℂ) :=
  match npVectorize qrf A with
  | .error e => .error e
  | .ok qr => .ok fun b => multiqrM (qr b).1 (qr b).2

/-- The positive-definite path of `multilogm` applied to one matrix, given the
output `(w, v)` of the library eigendecomposition `np.linalg.eigh(A)` (real
eigenvalues `w`, eigenvector matrix `v` with `A = v @ diag(w) @ vᴴ`): the code
forms `v @ (np.expand_dims(np.log(w), -1) * multihconj(v))`, i.e. entrywise
`∑ c, v i c * (log (w c) * vᴴ c j)`. -/
noncomputable def multilogmPD {n : ℕ} (v : Matrix (Fin n) (Fin n) ℂ) (w : Fin n → ℝ) :
    Matrix (Fin n) (Fin n) ℂ :=
  v * Matrix.of fun i j => (Real.log (w i) : ℂ) * vᴴ i j

/-- The symmetric path of `multiexpm` applied to one matrix, given the output
`(w, v)` of `np.linalg.eigh`: `v @ (np.expand_dims(np.exp(w), -1) *
multihconj(v))`. -/
noncomputable def multiexpmSym {n : ℕ} (v : Matrix (Fin n) (Fin n) ℂ) (w : Fin n → ℝ) :
    Matrix (Fin n) (Fin n) ℂ :=
  v * Matrix.of fun i j => (Real.exp (w i) : ℂ) * vᴴ i j

/-- The positive-definite path of `multilogm` on a 3-D batch (eigendecomposition
slice-wise, as `np.linalg.eigh` on a stacked array). -/
noncomputable def multilogmPDB {k n : ℕ} (v : Fin k → Matrix (Fin n) (Fin n) ℂ)
    (w : Fin k → Fin n → ℝ) : Fin k → Matrix (Fin n) (Fin n) ℂ :=
  fun b => multilogmPD (v b) (w b)

/-- The symmetric path of `multiexpm` on a 3-D batch. -/
noncomputable def multiexpmSymB {k n : ℕ} (v : Fin k → Matrix (Fin n) (Fin n) ℂ)
    (w : Fin k → Fin n → ℝ) : Fin k → Matrix (Fin n) (Fin n) ℂ :=
  fun b => multiexpmSym (v b) (w b)

/-- Model of `scipy.linalg.expm` on one matrix: the mathematical matrix
exponential it computes (exact-arithmetic idealization of the
scaling-and-squaring / Padé algorithm). -/
noncomputable def scipyExpm {n : ℕ} (A : Matrix (Fin n) (Fin n) ℂ) :
    Matrix (Fin n) (Fin n) ℂ :=
  NormedSpace.exp ℂ A

/-- The general (non-symmetric) path of `multiexpm`: `np.vectorize` of
`scipy.linalg.expm` over the batch axis. -/
noncomputable def multiexpmGenB {k n : ℕ} (A : Fin k → Matrix (Fin n) (Fin n) ℂ) :
    Except NpError (Fin k → Matrix (Fin n) (Fin n) ℂ) :=
  npVectorize scipyExpm A

/-- The general path of `multilogm`, parametrized by the per-matrix library
routine `logmf` standing for `scipy.linalg.logm` (whose contract — it returns a
matrix logarithm of its input when the spectrum avoids the closed negative real
axis — enters the theorems as a hypothesis): `np.vectorize` over the batch
axis. -/
def multilogmGenB {k n : ℕ}
    (logmf : Matrix (Fin n) (Fin n) ℂ → Matrix (Fin n) (Fin n) ℂ)
    (A : Fin k → Matrix (Fin n) (Fin n) ℂ) :
    Except NpError (Fin k → Matrix (Fin n) (Fin n) ℂ) :=
  npVectorize logmf A

/-- Frobenius norm of a real matrix, `np.linalg.norm` of a 2-D array. -/
noncomputable def frobeniusNorm {m n : ℕ} (A : Matrix (Fin m) (Fin n) ℝ) : ℝ :=
  Real.sqrt (∑ i, ∑ j, A i j ^ 2)

namespace Euclidean

/-- Modelled from the spec: the `Euclidean(m, n)` manifold implementation is
not under `src/` (only its tests are); per the spec, `dim` is `m * n`, the real
dimension of the tangent space. -/
def dim (m n : ℕ) : ℕ := m * n

/-- Modelled from the spec: `typical_dist` of `Euclidean(m, n)` is
`sqrt(m * n)` (the test asserts `sqrt(dim)`). -/
noncomputable def typicalDist (m n : ℕ) : ℝ := Real.sqrt (dim m n)

/-- Modelled from the spec: `dist(x, y)` of the Euclidean manifold is the
ambient (Frobenius) norm of the difference `x - y`. -/
noncomputable def dist {m n : ℕ} (x y : Matrix (Fin m) (Fin n) ℝ) : ℝ :=
  frobeniusNorm (x - y)

end Euclidean

namespace PSDFixedRank

/-- Modelled from the spec: the `PSDFixedRank(n, k)` manifold implementation is
not under `src/`.  A point is an `n × k` factor `X` representing `X Xᵀ`, with
the rotational ambiguity `X ~ X Q` for `Q` in the orthogonal group `O(k)`; the
spec requires the metric to be invariant under this ambiguity, so `dist` is the
quotient (orbit) distance: the infimum over orthogonal `Q` of the Frobenius
distance between `X Q` and `Y`. -/
noncomputable def dist {n k : ℕ} (X Y : Matrix (Fin n) (Fin k) ℝ) : ℝ :=
  sInf {d : ℝ | ∃ Q : Matrix (Fin k) (Fin k) ℝ, Qᵀ * Q = 1 ∧
    d = frobeniusNorm (X * Q - Y)}

end PSDFixedRank

/-- Modelled from the spec: the error raised eagerly at construction time for
an invalid configuration (the optimizer sources are not under `src/`; the test
asserts a `ValueError`-compatible failure, named `ConfigurationError` in the
spec's taxonomy). -/
inductive ConfigurationError where
  | unknownBetaRule : String → ConfigurationError
deriving DecidableEq

/-- Modelled from the spec: the recognized beta-update rule names of the
conjugate-gradient optimizer, as enumerated by its test. -/
def betaRuleNames : List String :=
  ["FletcherReeves", "PolakRibiere", "HestenesStiefel", "HagerZhang", "LiuStorey"]

/-- Modelled from the spec: a constructed conjugate-gradient optimizer; its
beta rule is one of the recognized names. -/
structure ConjugateGradient where
  betaRule : String

/-- Modelled from the spec: the constructor of the conjugate-gradient
optimizer validates the beta-rule name eagerly and fails with
`ConfigurationError` on an unrecognized name (construction returns no
optimizer at all, so nothing is deferred to first use). -/
def ConjugateGradient.make (rule : String) : Except ConfigurationError ConjugateGradient :=
  if rule ∈ betaRuleNames then .ok ⟨rule⟩
  else .error (.unknownBetaRule rule)

/-- A concrete stand-in for the library QR routine, used to instantiate the
`qrf` parameter at concrete inputs. -/
noncomputable def trivialQRF {m n : ℕ} (A : Matrix (Fin m) (Fin n) ℂ) :
    Matrix (Fin m) (Fin n) ℂ × Matrix (Fin n) (Fin n) ℂ :=
  (A, 1)

/-- The empty batch of `m × n` complex matrices. -/
def emptyBatch (m n : ℕ) : Fin 0 → Matrix (Fin m) (Fin n) ℂ :=
  fun b => b.elim0

/-- Concrete batch input used by witnesses. -/
noncomputable def cA2 : Fin 1 → Matrix (Fin 1) (Fin 1) ℂ := fun _ => Matrix.of fun _ _ => 2

/-- Concrete underlying `q` factor used by witnesses. -/
noncomputable def cQ2 : Fin 1 → Matrix (Fin 1) (Fin 1) ℂ := fun _ => Matrix.of fun _ _ => -1

/-- Concrete underlying `r` factor used by witnesses. -/
noncomputable def cR2 : Fin 1 → Matrix (Fin 1) (Fin 1) ℂ := fun _ => Matrix.of fun _ _ => -2

/-- Concrete batch (the identity matrix) used by the `multilogm`/`multiexpm`
round-trip witness. -/
noncomputable def c3A : Fin 1 → Matrix (Fin 1) (Fin 1) ℂ := fun _ => 1

/-- Concrete `scipy.linalg.logm` output batch used by the round-trip witness. -/
noncomputable def c3L : Fin 1 → Matrix (Fin 1) (Fin 1) ℂ := fun _ => 0

/-- Concrete eigenvector batch for `c3A` used by the round-trip witness. -/
noncomputable def c3v : Fin 1 → Matrix (Fin 1) (Fin 1) ℂ := fun _ => 1

/-- Concrete eigenvalue batch for `c3A` used by the round-trip witness. -/
def c3w : Fin 1 → Fin 1 → ℝ := fun _ _ => 1

/-- Concrete eigenvalue batch for `multilogmPDB c3v c3w` used by the
round-trip witness. -/
def c3w' : Fin 1 → Fin 1 → ℝ := fun _ _ => 0

/-- Concrete zero batch used by the slice-independence witness. -/
noncomputable def c9M : Fin 1 → Matrix (Fin 1) (Fin 1) ℂ := fun _ => 0

/-- Concrete eigenvalue batch used by the slice-independence witness. -/
def c9w : Fin 1 → Fin 1 → ℝ := fun _ _ => 0

/-- Concrete per-matrix function used by the slice-independence witness for
the `np.vectorize`-based general path. -/
def c9f : Matrix (Fin 1) (Fin 1) ℂ → Matrix (Fin 1) (Fin 1) ℂ := id

/-- Concrete `np.vectorize` output used by the slice-independence witness. -/
noncomputable def c9res : Fin 1 → Matrix (Fin 1) (Fin 1) ℂ := fun _ => 0

/-- Concrete general-path `multiexpm` output used by the slice-independence
witness. -/
noncomputable def c9eres : Fin 1 → Matrix (Fin 1) (Fin 1) ℂ := fun _ => scipyExpm 0

/-- Concrete `multiqr` output used by the slice-independence witness. -/
noncomputable def c9qres : Fin 1 → Matrix (Fin 1) (Fin 1) ℂ × Matrix (Fin 1) (Fin 1) ℂ :=
  fun _ => multiqrM (0 : Matrix (Fin 1) (Fin 1) ℂ) 1

/-- Unit-modulus property of the phase factor: `s * conj s = 1`, whatever the
diagonal entry (also in the zero special case). -/
theorem normSq_qrSign (d : ℂ) : Complex.normSq (qrSign d) = 1 := by
  by_cases h : d = 0
  · simp [h, qrSign]
  · have habs : Complex.abs d ≠ 0 := by simpa using h
    simp only [qrSign, if_neg h]
    rw [map_div₀, Complex.normSq_ofReal, Complex.normSq_eq_abs]
    field_simp
    ring

/-- The phase factor times its conjugate is `1`. -/
theorem qrSign_mul_conj (d : ℂ) : qrSign d * (starRingEnd ℂ) (qrSign d) = 1 := by
  rw [Complex.mul_conj, normSq_qrSign, Complex.ofReal_one]

/-- The conjugate phase factor times the phase factor is `1`. -/
theorem conj_qrSign_mul (d : ℂ) : (starRingEnd ℂ) (qrSign d) * qrSign d = 1 := by
  rw [mul_comm]; exact qrSign_mul_conj d

/-- The phase factor at a zero diagonal entry is `1`. -/
theorem qrSign_zero : qrSign 0 = 1 := by
  simp [qrSign]

/-- A rescaled diagonal entry `d * conj (qrSign d)` is real and non-negative,
and a zero entry receives no correction. -/
theorem diag_mul_conj_qrSign (d : ℂ) :
    (d * (starRingEnd ℂ) (qrSign d)).im = 0 ∧ 0 ≤ (d * (starRingEnd ℂ) (qrSign d)).re := by
  by_cases h : d = 0
  · subst h; simp
  · have habs : Complex.abs d ≠ 0 := by simpa using h
    have key : d * (starRingEnd ℂ) (qrSign d) = ((Complex.abs d : ℝ) : ℂ) := by
      simp only [qrSign, if_neg h]
      rw [map_div₀, Complex.conj_ofReal]
      calc d * ((starRingEnd ℂ) d / ((Complex.abs d : ℝ) : ℂ))
          = d * (starRingEnd ℂ) d / ((Complex.abs d : ℝ) : ℂ) := by ring
        _ = ((Complex.normSq d : ℝ) : ℂ) / ((Complex.abs d : ℝ) : ℂ) := by
            rw [Complex.mul_conj]
        _ = ((Complex.normSq d / Complex.abs d : ℝ) : ℂ) := by
            rw [Complex.ofReal_div]
        _ = ((Complex.abs d : ℝ) : ℂ) := by
            rw [Complex.normSq_eq_abs, sq, mul_div_assoc, div_self habs, mul_one]
    rw [key]
    exact ⟨Complex.ofReal_im _, by rw [Complex.ofReal_re]; exact Complex.abs.nonneg d⟩

/-- C1: for every input batch, `multiqr` rescales the factors returned by the
underlying QR routine so that every diagonal entry of the returned `R` is real
(`im = 0`) and non-negative (`0 ≤ re`); a zero diagonal entry is treated as
having sign `+1`: its phase factor is `1`, so neither the entry itself nor the
corresponding column of `Q` receives any phase correction. -/
theorem multiqr_diag_real_nonneg (k m n : ℕ)
    (q : Fin k → Matrix (Fin m) (Fin n) ℂ) (r : Fin k → Matrix (Fin n) (Fin n) ℂ)
    (b : Fin k) (i : Fin n) :
    ((multiqrM (q b) (r b)).2 i i).im = 0 ∧ 0 ≤ ((multiqrM (q b) (r b)).2 i i).re ∧
      (r b i i = 0 → qrSign (r b i i) = 1 ∧ (multiqrM (q b) (r b)).2 i i = r b i i ∧
        ∀ a, (multiqrM (q b) (r b)).1 a i = q b a i) := by
  have hentry : (multiqrM (q b) (r b)).2 i i = r b i i * (starRingEnd ℂ) (qrSign (r b i i)) := rfl
  have h := diag_mul_conj_qrSign (r b i i)
  refine ⟨by rw [hentry]; exact h.1, by rw [hentry]; exact h.2, ?_⟩
  intro h0
  refine ⟨by rw [h0]; exact qrSign_zero, ?_, ?_⟩
  · rw [hentry, h0, qrSign_zero, map_one, mul_one]
  · intro a
    show q b a i * qrSign (r b i i) = q b a i
    rw [h0, qrSign_zero, mul_one]

/-- Witness for C1 at a concrete input with a zero diagonal entry. -/
theorem multiqr_diag_real_nonneg_witness :
    ((multiqrM (c9M 0) (c9M 0)).2 0 0).im = 0 ∧ 0 ≤ ((multiqrM (c9M 0) (c9M 0)).2 0 0).re ∧
      (c9M 0 0 0 = 0 → qrSign (c9M 0 0 0) = 1 ∧ (multiqrM (c9M 0) (c9M 0)).2 0 0 = c9M 0 0 0 ∧
        ∀ a, (multiqrM (c9M 0) (c9M 0)).1 a 0 = c9M 0 a 0) :=
  multiqr_diag_real_nonneg 1 1 1 c9M c9M 0 0

/-- C2: the sign-stabilizing rescale of `multiqr` preserves the factorization
and the orthonormality of the columns of `Q`: if the underlying library
factors of slice `b` satisfy `q @ r = A` and `qᴴ @ q = I`, then the returned
factors satisfy the same two identities (each phase factor has unit
modulus). -/
theorem multiqr_reconstructs_orthonormal (k m n : ℕ)
    (A q : Fin k → Matrix (Fin m) (Fin n) ℂ) (r : Fin k → Matrix (Fin n) (Fin n) ℂ)
    (b : Fin k) (hqr : q b * r b = A b) (hq : (q b)ᴴ * q b = 1) :
    (multiqrM (q b) (r b)).1 * (multiqrM (q b) (r b)).2 = A b ∧
      ((multiqrM (q b) (r b)).1)ᴴ * (multiqrM (q b) (r b)).1 = 1 := by
  constructor
  · rw [← hqr]
    ext i j
    simp only [multiqrM, qrFixQ, qrFixR, Matrix.mul_apply, Matrix.of_apply]
    apply Finset.sum_congr rfl
    intro c _
    have hs : qrSign (r b c c) * (starRingEnd ℂ) (qrSign (r b c c)) = 1 := qrSign_mul_conj _
    calc q b i c * qrSign (r b c c) * (r b c j * (starRingEnd ℂ) (qrSign (r b c c)))
        = q b i c * r b c j * (qrSign (r b c c) * (starRingEnd ℂ) (qrSign (r b c c))) := by ring
      _ = q b i c * r b c j := by rw [hs, mul_one]
  · have key : ∀ i j, (((multiqrM (q b) (r b)).1)ᴴ * (multiqrM (q b) (r b)).1) i j
        = (starRingEnd ℂ) (qrSign (r b i i)) * qrSign (r b j j) * (((q b)ᴴ * q b) i j) := by
      intro i j
      simp only [multiqrM, qrFixQ, Matrix.mul_apply, Matrix.conjTranspose_apply,
        Matrix.of_apply]
      rw [Finset.mul_sum]
      apply Finset.sum_congr rfl
      intro a _
      simp only [star_mul', Complex.star_def]
      ring
    ext i j
    rw [key, hq]
    by_cases hij : i = j
    · subst hij
      rw [Matrix.one_apply_eq, mul_one, conj_qrSign_mul]
    · rw [Matrix.one_apply_ne hij, mul_zero]

/-- Witness for C2 at the concrete batch `A = [[2]]`, `q = [[-1]]`,
`r = [[-2]]`. -/
theorem multiqr_reconstructs_orthonormal_witness :
    cQ2 0 * cR2 0 = cA2 0 ∧ (cQ2 0)ᴴ * cQ2 0 = 1 ∧
      ((multiqrM (cQ2 0) (cR2 0)).1 * (multiqrM (cQ2 0) (cR2 0)).2 = cA2 0 ∧
        ((multiqrM (cQ2 0) (cR2 0)).1)ᴴ * (multiqrM (cQ2 0) (cR2 0)).1 = 1) := by
  have hqr : cQ2 0 * cR2 0 = cA2 0 := by
    ext i j
    simp [cQ2, cR2, cA2, Matrix.mul_apply]
  have hq : (cQ2 0)ᴴ * cQ2 0 = 1 := by
    ext i j
    fin_cases i; fin_cases j
    simp [cQ2, Matrix.mul_apply, Matrix.one_apply]
  exact ⟨hqr, hq, multiqr_reconstructs_orthonormal 1 1 1 cA2 cQ2 cR2 0 hqr hq⟩

/-- C10: `multisym` and `multiskew` decompose any square matrix into its
symmetric and skew-symmetric parts: `multisym(A) + multiskew(A) = A` exactly,
both for a single 2-D matrix and slice-wise for a 3-D batch. -/
theorem multisym_add_multiskew (n k : ℕ) (A : Matrix (Fin n) (Fin n) ℂ)
    (B : Fin k → Matrix (Fin n) (Fin n) ℂ) :
    multisym2 A + multiskew2 A = A ∧ multisymB B + multiskewB B = B := by
  constructor
  · ext i j
    simp only [multisym2, multiskew2, npT, Matrix.add_apply, Matrix.sub_apply,
      Matrix.smul_apply, Matrix.of_apply, smul_eq_mul]
    ring_nf
  · funext b
    ext i j
    simp only [multisymB, multiskewB, npTranspose021, Pi.add_apply, Matrix.add_apply,
      Matrix.sub_apply, Matrix.smul_apply, Matrix.of_apply, smul_eq_mul]
    ring_nf

/-- C5: `multitransp` accepts both a 2-D matrix and a 3-D batch; a 2-D input
produces the plain (non-batched, `NDArray.two`) transpose, a 3-D input keeps
the batch axis and transposes each slice, and the per-slice semantics of the
3-D branch coincides with the 2-D branch. -/
theorem multitransp_two_and_three (m n k : ℕ) (A : Matrix (Fin m) (Fin n) ℂ)
    (B : Fin k → Matrix (Fin m) (Fin n) ℂ) :
    multitransp (.two m n A) = .two n m Aᵀ ∧
      multitransp (.three k m n B) = .three k n m (fun b => (B b)ᵀ) ∧
      ∀ b, multitranspB B b = npT (B b) :=
  ⟨rfl, rfl, fun _ => rfl⟩

/-- C6: for the Euclidean manifold with `m = 10`, `n = 5`: `dim = 50`,
`typical_dist = sqrt 50`, and the distance between any two points is the
Frobenius norm of their difference. -/
theorem euclidean_10_5_contract :
    Euclidean.dim 10 5 = 50 ∧ Euclidean.typicalDist 10 5 = Real.sqrt 50 ∧
      ∀ x y : Matrix (Fin 10) (Fin 5) ℝ, Euclidean.dist x y = frobeniusNorm (x - y) := by
  refine ⟨rfl, ?_, fun x y => rfl⟩
  show Real.sqrt ((10 * 5 : ℕ) : ℝ) = Real.sqrt 50
  norm_num

/-- C7: constructing the conjugate-gradient optimizer with an unrecognized
beta-rule name fails at construction time with a `ConfigurationError`; no
optimizer value is produced, so the failure cannot be deferred to first
use. -/
theorem conjugate_gradient_unknown_rule (rule : String) (h : rule ∉ betaRuleNames) :
    ConjugateGradient.make rule = .error (.unknownBetaRule rule) ∧
      ∀ o : ConjugateGradient, ConjugateGradient.make rule ≠ .ok o := by
  constructor
  · rw [ConjugateGradient.make, if_neg h]
  · intro o ho
    rw [ConjugateGradient.make, if_neg h] at ho
    exact Except.noConfusion ho

/-- Witness for C7 at the rule name used by the repository's test. -/
theorem conjugate_gradient_unknown_rule_witness :
    "SomeUnknownBetaRule" ∉ betaRuleNames ∧
      ConjugateGradient.make "SomeUnknownBetaRule" =
        .error (.unknownBetaRule "SomeUnknownBetaRule") := by
  have h : "SomeUnknownBetaRule" ∉ betaRuleNames := by decide
  exact ⟨h, (conjugate_gradient_unknown_rule "SomeUnknownBetaRule" h).1⟩

/-- The Frobenius norm of the zero matrix is zero. -/
theorem frobeniusNorm_zero (m n : ℕ) : frobeniusNorm (0 : Matrix (Fin m) (Fin n) ℝ) = 0 := by
  unfold frobeniusNorm
  simp

/-- C8: for the `PSDFixedRank` manifold with `n = 50`, `k = 10`, the distance
between a factor `X` and `X * Q` for any orthogonal `Q` is zero: the metric is
invariant to right-multiplication of the factor by any orthogonal matrix. -/
theorem psd_fixedrank_dist_orbit (X : Matrix (Fin 50) (Fin 10) ℝ)
    (Q : Matrix (Fin 10) (Fin 10) ℝ) (hQ : Qᵀ * Q = 1) :
    PSDFixedRank.dist X (X * Q) = 0 := by
  have hmem : (0 : ℝ) ∈ {d : ℝ | ∃ P : Matrix (Fin 10) (Fin 10) ℝ, Pᵀ * P = 1 ∧
      d = frobeniusNorm (X * P - X * Q)} := by
    refine ⟨Q, hQ, ?_⟩
    rw [sub_self, frobeniusNorm_zero]
  have hlb : ∀ d ∈ {d : ℝ | ∃ P : Matrix (Fin 10) (Fin 10) ℝ, Pᵀ * P = 1 ∧
      d = frobeniusNorm (X * P - X * Q)}, 0 ≤ d := by
    rintro d ⟨P, -, rfl⟩
    exact Real.sqrt_nonneg _
  unfold PSDFixedRank.dist
  exact le_antisymm (csInf_le ⟨0, hlb⟩ hmem) (le_csInf ⟨0, hmem⟩ hlb)

/-- Witness for C8 at `X = 0`, `Q = 1`. -/
theorem psd_fixedrank_dist_orbit_witness :
    (1 : Matrix (Fin 10) (Fin 10) ℝ)ᵀ * 1 = 1 ∧
      PSDFixedRank.dist (0 : Matrix (Fin 50) (Fin 10) ℝ)
        ((0 : Matrix (Fin 50) (Fin 10) ℝ) * (1 : Matrix (Fin 10) (Fin 10) ℝ)) = 0 := by
  have h : (1 : Matrix (Fin 10) (Fin 10) ℝ)ᵀ * 1 = 1 := by
    rw [Matrix.transpose_one, mul_one]
  exact ⟨h, psd_fixedrank_dist_orbit 0 1 h⟩

/-- The `v @ (col ⊙ vᴴ)` broadcast used by the eigendecomposition paths equals
conjugation by a diagonal matrix. -/
theorem broadcast_diag_eq (n : ℕ) (v : Matrix (Fin n) (Fin n) ℂ) (c : Fin n → ℂ) :
    (Matrix.of fun i j => c i * vᴴ i j) = Matrix.diagonal c * vᴴ := by
  ext i j
  rw [Matrix.diagonal_mul]
  rfl

/-- The positive-definite log path written as conjugation by a diagonal
matrix. -/
theorem multilogmPD_eq_diag (n : ℕ) (v : Matrix (Fin n) (Fin n) ℂ) (w : Fin n → ℝ) :
    multilogmPD v w = v * Matrix.diagonal (fun i => ((Real.log (w i) : ℝ) : ℂ)) * vᴴ := by
  rw [multilogmPD, broadcast_diag_eq, ← Matrix.mul_assoc]

/-- The symmetric exp path written as conjugation by a diagonal matrix. -/
theorem multiexpmSym_eq_diag (n : ℕ) (v : Matrix (Fin n) (Fin n) ℂ) (w : Fin n → ℝ) :
    multiexpmSym v w = v * Matrix.diagonal (fun i => ((Real.exp (w i) : ℝ) : ℂ)) * vᴴ := by
  rw [multiexpmSym, broadcast_diag_eq, ← Matrix.mul_assoc]

/-- Matrix exponential of a real diagonal matrix conjugated by a unitary
matrix. -/
theorem exp_unitary_conj_diag (n : ℕ) (v : Matrix (Fin n) (Fin n) ℂ) (c : Fin n → ℝ)
    (h1 : v * vᴴ = 1) (h2 : vᴴ * v = 1) :
    NormedSpace.exp ℂ (v * Matrix.diagonal (fun i => ((c i : ℝ) : ℂ)) * vᴴ)
      = v * Matrix.diagonal (fun i => ((Real.exp (c i) : ℝ) : ℂ)) * vᴴ := by
  have hu : IsUnit v := ⟨⟨v, vᴴ, h1, h2⟩, rfl⟩
  have hinv : v⁻¹ = vᴴ := Matrix.inv_eq_right_inv h1
  have hdg : NormedSpace.exp ℂ (fun i => ((c i : ℝ) : ℂ)) = fun i => ((Real.exp (c i) : ℝ) : ℂ) := by
    funext i
    rw [Pi.coe_exp, ← Complex.exp_eq_exp_ℂ, ← Complex.ofReal_exp]
  rw [← hinv, Matrix.exp_conj ℂ v _ hu, Matrix.exp_diagonal, hdg, hinv]

/-- C3: on a batch whose slice `b` has eigenvalues off the closed negative
real axis, `matrix_exp(matrix_log(A)) = A` on both paths.  General path: the
library routine `scipy.linalg.logm` returns some `L b` with `exp (L b) = A b`
(its contract on that domain), and `scipy.linalg.expm` recovers `A b`.
Positive-definite/symmetric path: given the library eigendecomposition
`(w, v)` of `A` at slice `b` (unitary `v`, positive eigenvalues `w`) and any
library eigendecomposition `(w', v')` of the computed logarithm
`multilogmPDB v w b`, the symmetric exp path reconstructs `A b` exactly. -/
theorem multilogm_multiexpm_roundtrip (k n : ℕ)
    (A L v v' : Fin k → Matrix (Fin n) (Fin n) ℂ) (w w' : Fin k → Fin n → ℝ) (b : Fin k)
    (hL : NormedSpace.exp ℂ (L b) = A b)
    (hv1 : v b * (v b)ᴴ = 1) (hv2 : (v b)ᴴ * v b = 1)
    (hw : ∀ i, 0 < w b i)
    (hA : A b = v b * Matrix.diagonal (fun i => ((w b i : ℝ) : ℂ)) * (v b)ᴴ)
    (hv'1 : v' b * (v' b)ᴴ = 1) (hv'2 : (v' b)ᴴ * v' b = 1)
    (hA' : multilogmPDB v w b
      = v' b * Matrix.diagonal (fun i => ((w' b i : ℝ) : ℂ)) * (v' b)ᴴ) :
    scipyExpm (L b) = A b ∧ multiexpmSymB v' w' b = A b := by
  constructor
  · rw [scipyExpm]; exact hL
  · have key1 : NormedSpace.exp ℂ (multilogmPDB v w b) = A b := by
      rw [multilogmPDB, multilogmPD_eq_diag, exp_unitary_conj_diag n (v b) _ hv1 hv2]
      have hexp : (fun i => ((Real.exp (Real.log (w b i)) : ℝ) : ℂ))
          = fun i => ((w b i : ℝ) : ℂ) := by
        funext i
        rw [Real.exp_log (hw i)]
      rw [hexp, ← hA]
    have key2 : multiexpmSymB v' w' b = NormedSpace.exp ℂ (multilogmPDB v w b) := by
      rw [hA', exp_unitary_conj_diag n (v' b) _ hv'1 hv'2, multiexpmSymB, multiexpmSym_eq_diag]
    rw [key2, key1]

/-- Witness for C3 at the concrete batch `A = [I]`, with `L = [0]`, `v = I`,
`w = 1`, `v' = I`, `w' = 0`. -/
theorem multilogm_multiexpm_roundtrip_witness :
    NormedSpace.exp ℂ (c3L 0) = c3A 0 ∧ 0 < c3w 0 0 ∧
      (scipyExpm (c3L 0) = c3A 0 ∧ multiexpmSymB c3v c3w' 0 = c3A 0) := by
  have hL : NormedSpace.exp ℂ (c3L 0) = c3A 0 := by
    show NormedSpace.exp ℂ (0 : Matrix (Fin 1) (Fin 1) ℂ) = 1
    exact NormedSpace.exp_zero
  have hv1 : c3v 0 * (c3v 0)ᴴ = 1 := by
    show (1 : Matrix (Fin 1) (Fin 1) ℂ) * (1 : Matrix (Fin 1) (Fin 1) ℂ)ᴴ = 1
    rw [Matrix.conjTranspose_one, mul_one]
  have hv2 : (c3v 0)ᴴ * c3v 0 = 1 := by
    show (1 : Matrix (Fin 1) (Fin 1) ℂ)ᴴ * 1 = 1
    rw [Matrix.conjTranspose_one, mul_one]
  have hw : ∀ i : Fin 1, 0 < c3w 0 i := fun _ => one_pos
  have hA : c3A 0 = c3v 0 * Matrix.diagonal (fun i => ((c3w 0 i : ℝ) : ℂ)) * (c3v 0)ᴴ := by
    show (1 : Matrix (Fin 1) (Fin 1) ℂ)
      = 1 * Matrix.diagonal (fun _ => ((1 : ℝ) : ℂ)) * (1 : Matrix (Fin 1) (Fin 1) ℂ)ᴴ
    rw [Matrix.conjTranspose_one, mul_one, one_mul, Complex.ofReal_one,
      Matrix.diagonal_one]
  have hA' : multilogmPDB c3v c3w 0
      = c3v 0 * Matrix.diagonal (fun i => ((c3w' 0 i : ℝ) : ℂ)) * (c3v 0)ᴴ := by
    ext i j
    simp [multilogmPDB, multilogmPD, c3v, c3w, c3w', Real.log_one, Matrix.mul_apply,
      Matrix.diagonal_apply, Matrix.one_apply]
  exact ⟨hL, one_pos,
    multilogm_multiexpm_roundtrip 1 1 c3A c3L c3v c3v c3w c3w' 0 hL hv1 hv2 hw hA hv1 hv2 hA'⟩

/-- C4 counterexample: on a batch of size 0, `multiqr` does not return an
empty batch — the `np.vectorize` call it is built on raises `ValueError`
because `otypes` is not set and the function cannot be called on any slice to
determine output types. -/
theorem multiqr_empty_batch_value_error :
    multiqrV trivialQRF (emptyBatch 2 2) = .error (.valueError vectorizeSize0Msg) := rfl

/-- C4 amended: on a batch of size 0, the broadcasting kernels (`multitransp`,
`multihconj`, `multisym`, `multiskew`) and the eigendecomposition paths of
`multilogm`/`multiexpm` do not fault and return the empty batch of the same
structure, but every `np.vectorize`-based kernel — `multiqr` and the general
(default) paths of `multilogm` and `multiexpm` — raises `ValueError`. -/
theorem batched_kernels_empty_batch (m n : ℕ)
    (A : Fin 0 → Matrix (Fin m) (Fin n) ℂ) (S : Fin 0 → Matrix (Fin n) (Fin n) ℂ)
    (v : Fin 0 → Matrix (Fin n) (Fin n) ℂ) (w : Fin 0 → Fin n → ℝ)
    (f : Matrix (Fin n) (Fin n) ℂ → Matrix (Fin n) (Fin n) ℂ)
    (qrf : Matrix (Fin m) (Fin n) ℂ → Matrix (Fin m) (Fin n) ℂ × Matrix (Fin n) (Fin n) ℂ) :
    multitranspB A = (fun b => b.elim0) ∧ multihconjB A = (fun b => b.elim0) ∧
      multisymB S = (fun b => b.elim0) ∧ multiskewB S = (fun b => b.elim0) ∧
      multilogmPDB v w = (fun b => b.elim0) ∧ multiexpmSymB v w = (fun b => b.elim0) ∧
      multilogmGenB f S = .error (.valueError vectorizeSize0Msg) ∧
      multiexpmGenB S = .error (.valueError vectorizeSize0Msg) ∧
      multiqrV qrf A = .error (.valueError vectorizeSize0Msg) := by
  refine ⟨?_, ?_, ?_, ?_, ?_, ?_, rfl, rfl, rfl⟩ <;> funext b <;> exact b.elim0

/-- C9: every batched kernel preserves the leading batch axis (enforced by the
result type `Fin k → _`) and computes slice `b` of the output from slice `b`
of the input alone: if two inputs agree on slice `b`, the outputs agree on
slice `b`, for `multitransp`, `multihconj`, `multisym`, `multiskew`, the
eigendecomposition paths of `multilogm`/`multiexpm`, the `np.vectorize`-based
general paths, and `multiqr` (whose slice `b` is moreover exactly the
sign-stabilized factorization of input slice `b`). -/
theorem batched_kernels_slicewise (k m n : ℕ)
    (A B : Fin k → Matrix (Fin m) (Fin n) ℂ) (S T : Fin k → Matrix (Fin n) (Fin n) ℂ)
    (v v' : Fin k → Matrix (Fin n) (Fin n) ℂ) (w w' : Fin k → Fin n → ℝ)
    (f : Matrix (Fin n) (Fin n) ℂ → Matrix (Fin n) (Fin n) ℂ)
    (qrf : Matrix (Fin m) (Fin n) ℂ → Matrix (Fin m) (Fin n) ℂ × Matrix (Fin n) (Fin n) ℂ)
    (b : Fin k) (hAB : A b = B b) (hST : S b = T b) (hv : v b = v' b) (hw : w b = w' b)
    (resS resT eresS eresT : Fin k → Matrix (Fin n) (Fin n) ℂ)
    (hresS : multilogmGenB f S = .ok resS) (hresT : multilogmGenB f T = .ok resT)
    (heresS : multiexpmGenB S = .ok eresS) (heresT : multiexpmGenB T = .ok eresT)
    (qresA qresB : Fin k → Matrix (Fin m) (Fin n) ℂ × Matrix (Fin n) (Fin n) ℂ)
    (hqA : multiqrV qrf A = .ok qresA) (hqB : multiqrV qrf B = .ok qresB) :
    multitranspB A b = multitranspB B b ∧ multihconjB A b = multihconjB B b ∧
      multisymB S b = multisymB T b ∧ multiskewB S b = multiskewB T b ∧
      multilogmPDB v w b = multilogmPDB v' w' b ∧
      multiexpmSymB v w b = multiexpmSymB v' w' b ∧
      resS b = f (S b) ∧ resS b = resT b ∧ eresS b = scipyExpm (S b) ∧ eresS b = eresT b ∧
      qresA b = multiqrM (qrf (A b)).1 (qrf (A b)).2 ∧ qresA b = qresB b := by
  have hk : k ≠ 0 := Nat.pos_iff_ne_zero.mp b.pos
  have hvec : ∀ (g : Matrix (Fin n) (Fin n) ℂ → Matrix (Fin n) (Fin n) ℂ)
      (U : Fin k → Matrix (Fin n) (Fin n) ℂ) (res : Fin k → Matrix (Fin n) (Fin n) ℂ),
      npVectorize g U = .ok res → res = fun c => g (U c) := by
    intro g U res h
    rw [npVectorize, if_neg hk] at h
    exact (Except.ok.inj h).symm
  have hS := hvec f S resS hresS
  have hT := hvec f T resT hresT
  have heS := hvec scipyExpm S eresS heresS
  have heT := hvec scipyExpm T eresT heresT
  have hqspec : ∀ (U : Fin k → Matrix (Fin m) (Fin n) ℂ)
      (qres : Fin k → Matrix (Fin m) (Fin n) ℂ × Matrix (Fin n) (Fin n) ℂ),
      multiqrV qrf U = .ok qres → qres = fun c => multiqrM (qrf (U c)).1 (qrf (U c)).2 := by
    intro U qres h
    rw [multiqrV, npVectorize, if_neg hk] at h
    exact (Except.ok.inj h).symm
  have hqA' := hqspec A qresA hqA
  have hqB' := hqspec B qresB hqB
  refine ⟨?_, ?_, ?_, ?_, ?_, ?_, ?_, ?_, ?_, ?_, ?_, ?_⟩
  · show npTranspose021 A b = npTranspose021 B b
    rw [npTranspose021, npTranspose021, hAB]
  · show (multitranspB A b).map (starRingEnd ℂ) = (multitranspB B b).map (starRingEnd ℂ)
    show (npTranspose021 A b).map (starRingEnd ℂ) = (npTranspose021 B b).map (starRingEnd ℂ)
    rw [npTranspose021, npTranspose021, hAB]
  · show (0.5 : ℂ) • (S b + npTranspose021 S b) = (0.5 : ℂ) • (T b + npTranspose021 T b)
    rw [npTranspose021, npTranspose021, hST]
  · show (0.5 : ℂ) • (S b - npTranspose021 S b) = (0.5 : ℂ) • (T b - npTranspose021 T b)
    rw [npTranspose021, npTranspose021, hST]
  · show multilogmPD (v b) (w b) = multilogmPD (v' b) (w' b)
    rw [hv, hw]
  · show multiexpmSym (v b) (w b) = multiexpmSym (v' b) (w' b)
    rw [hv, hw]
  · rw [hS]
  · rw [hS, hT]
    show f (S b) = f (T b)
    rw [hST]
  · rw [heS]
  · rw [heS, heT]
    show scipyExpm (S b) = scipyExpm (T b)
    rw [hST]
  · rw [hqA']
  · rw [hqA', hqB']
    show multiqrM (qrf (A b)).1 (qrf (A b)).2 = multiqrM (qrf (B b)).1 (qrf (B b)).2
    rw [hAB]

/-- Witness for C9 at a concrete singleton batch. -/
theorem batched_kernels_slicewise_witness :
    c9M 0 = c9M 0 ∧ multilogmGenB c9f c9M = .ok c9res ∧ multiexpmGenB c9M = .ok c9eres ∧
      multiqrV trivialQRF c9M = .ok c9qres ∧
      (multitranspB c9M 0 = multitranspB c9M 0 ∧ multihconjB c9M 0 = multihconjB c9M 0 ∧
        multisymB c9M 0 = multisymB c9M 0 ∧ multiskewB c9M 0 = multiskewB c9M 0 ∧
        multilogmPDB c9M c9w 0 = multilogmPDB c9M c9w 0 ∧
        multiexpmSymB c9M c9w 0 = multiexpmSymB c9M c9w 0 ∧
        c9res 0 = c9f (c9M 0) ∧ c9res 0 = c9res 0 ∧
        c9eres 0 = scipyExpm (c9M 0) ∧ c9eres 0 = c9eres 0 ∧
        c9qres 0 = multiqrM (trivialQRF (c9M 0)).1 (trivialQRF (c9M 0)).2 ∧
        c9qres 0 = c9qres 0) :=
  ⟨rfl, rfl, rfl, rfl,
    batched_kernels_slicewise 1 1 1 c9M c9M c9M c9M c9M c9M c9w c9w c9f trivialQRF 0
      rfl rfl rfl rfl c9res c9res c9eres c9eres rfl rfl rfl rfl c9qres c9qres rfl rfl⟩

end Pymanopt
